import Mathlib

/-
Verification of the monkey-rust interpreter: a shallow embedding of the
lexer (src/lexer.rs), Pratt parser (src/parser.rs), AST with its Display
implementation (src/ast.rs), token precedence table (src/token.rs),
runtime objects and environments (src/object.rs, src/environment.rs) and
the tree-walking evaluator (src/evaluator.rs).

Modelling conventions:
- Rust i64 is modelled as unbounded Int (no claim exercises overflow);
  division truncates toward zero like Rust, and division by zero is a
  panic, modelled explicitly.
- Rust panics (unreachable!, index out of bounds, division by zero,
  explicit panic!) are modelled as a distinguished failure value.
- The parser and evaluator are recursive through the AST and through
  runtime closures, so every mutually recursive function carries a fuel
  argument that decreases at each call; fuel exhaustion is a failure
  value distinct from panics.  Concrete programs are evaluated at an
  ample fixed fuel.
- The Rust lexer scans bytes of a &str; inputs in all claims are ASCII,
  so the byte sequence is modelled as the character list of the input
  and the 0 byte sentinel as the null character.
- Environment is a HashMap plus optional outer pointer in Rust; the map
  is modelled as an association list where insertion prepends, which
  gives the same get/set observations as HashMap (latest insertion for
  a key wins).
-/

namespace Monkey

/-- TokenKind from src/token.rs. -/
inductive TokenKind where
  | Illegal
  | Eof
  | Ident
  | Int
  | Assign
  | Plus
  | Minus
  | Slash
  | Aster
  | Bang
  | Semicolon
  | Rparen
  | Lparen
  | Rbrace
  | Lbrace
  | Comma
  | Let
  | Function
  | True
  | False
  | If
  | Else
  | Return
  | GreaterThan
  | LessThan
  | Equal
  | NotEqual
deriving DecidableEq, BEq

/-- Token from src/token.rs. -/
structure Token where
  kind : TokenKind
  literal : String
deriving DecidableEq, BEq

/-- Precedence from src/ast.rs.  Rust derives PartialOrd by declaration
order; the constructor the Rust code calls Prefix is named PrefixOp here. -/
inductive Precedence where
  | Lowest
  | Equals
  | Lessgreater
  | Sum
  | Product
  | PrefixOp
  | Call
deriving DecidableEq, BEq

/-- Discriminant order of Precedence, matching the derived PartialOrd. -/
def Precedence.toNat : Precedence → Nat
  | .Lowest => 0
  | .Equals => 1
  | .Lessgreater => 2
  | .Sum => 3
  | .Product => 4
  | .PrefixOp => 5
  | .Call => 6

/-- The strict order on Precedence used by the parser loop
(Rust: precedence < self.peek_precedence()). -/
def Precedence.lt (a b : Precedence) : Bool :=
  Nat.blt a.toNat b.toNat

/-- look_up_Ident from src/token.rs: keyword table for identifiers. -/
def look_up_ident (ident : String) : TokenKind :=
  match ident with
  | "let" => .Let
  | "fn" => .Function
  | "if" => .If
  | "else" => .Else
  | "return" => .Return
  | "false" => .False
  | "true" => .True
  | _ => .Ident

/-- Token::get_precedence from src/token.rs.  Note: there is no arm for
Lparen, so a call-start token falls into the catch-all and gets Lowest. -/
def Token.get_precedence (t : Token) : Precedence :=
  match t.kind with
  | .Equal => .Equals
  | .NotEqual => .Equals
  | .LessThan => .Lessgreater
  | .GreaterThan => .Lessgreater
  | .Plus => .Sum
  | .Minus => .Sum
  | .Slash => .Product
  | .Aster => .Product
  | _ => .Lowest

mutual
/-- Expression from src/ast.rs.  The constructors the Rust code calls
Prefix and Infix are named PrefixExpr and InfixExpr here. -/
inductive Expression where
  | Ident (name : String)
  | Int (value : Int)
  | Boolean (value : Bool)
  | PrefixExpr (op : String) (right : Expression)
  | InfixExpr (left : Expression) (op : String) (right : Expression)
  | If (condition : Expression) (consequence : BlockStatement)
      (alternative : Option BlockStatement)
  | Function (parameters : List String) (body : BlockStatement)
  | Call (function : Expression) (arguments : List Expression)

/-- Statement from src/ast.rs. -/
inductive Statement where
  | Let (ident : Expression) (value : Expression)
  | Return (value : Expression)
  | Expression (value : Expression)

/-- BlockStatement from src/ast.rs. -/
inductive BlockStatement where
  | mk (statements : List Statement)
end

/-- Field accessor for BlockStatement.statements. -/
def BlockStatement.statements : BlockStatement → List Statement
  | .mk s => s

/-- Program from src/ast.rs. -/
structure Program where
  statements : List Statement

mutual
/-- Display for Expression from src/ast.rs. -/
def Expression.to_string : Expression → String
  | .Ident name => name
  | .Int value => toString value
  | .Boolean value => cond value "true" "false"
  | .PrefixExpr op right => "(" ++ op ++ Expression.to_string right ++ ")"
  | .InfixExpr left op right =>
      "(" ++ Expression.to_string left ++ " " ++ op ++ " " ++
        Expression.to_string right ++ ")"
  | .If condition consequence alternative =>
      "if " ++ Expression.to_string condition ++ " " ++
        BlockStatement.to_string consequence ++
        (match alternative with
         | some a => BlockStatement.to_string a
         | none => "")
  | .Function parameters body =>
      "fn (" ++ String.intercalate ", " parameters ++ ") \x7b " ++
        BlockStatement.to_string body ++ " \x7d"
  | .Call function arguments =>
      Expression.to_string function ++ "(" ++
        String.intercalate ", " (expression_list_strings arguments) ++ ")"

/-- Stringify a list of call arguments, left to right. -/
def expression_list_strings : List Expression → List String
  | [] => []
  | e :: rest => Expression.to_string e :: expression_list_strings rest

/-- Display for Statement from src/ast.rs. -/
def Statement.to_string : Statement → String
  | .Let ident value =>
      "let " ++ Expression.to_string ident ++ " = " ++
        Expression.to_string value ++ ";"
  | .Return value => "return " ++ Expression.to_string value ++ ";"
  | .Expression value => Expression.to_string value

/-- Display for BlockStatement from src/ast.rs (statements concatenated). -/
def BlockStatement.to_string : BlockStatement → String
  | .mk statements => statement_list_string statements

/-- Concatenation of statement renderings. -/
def statement_list_string : List Statement → String
  | [] => ""
  | s :: rest => Statement.to_string s ++ statement_list_string rest
end

/-- The 0 byte the Rust lexer uses as its end sentinel, as a character. -/
def null_char : Char := '\x00'

/-- The opening brace character (kept out of literals for hygiene). -/
def lbrace_char : Char := Char.ofNat 123

/-- The closing brace character. -/
def rbrace_char : Char := Char.ofNat 125

/-- ASCII letter test matching the Rust byte ranges b,a..=z and A..=Z. -/
def is_letter (c : Char) : Bool :=
  (Nat.ble 97 c.toNat && Nat.ble c.toNat 122) ||
    (Nat.ble 65 c.toNat && Nat.ble c.toNat 90)

/-- ASCII digit test matching the Rust byte range 0..=9. -/
def is_digit (c : Char) : Bool :=
  Nat.ble 48 c.toNat && Nat.ble c.toNat 57

/-- Whitespace test matching skip_whitespace's byte set. -/
def is_whitespace (c : Char) : Bool :=
  c == ' ' || c == '\t' || c == '\n' || c == '\r'

/-- Lexer from src/lexer.rs.  The Rust struct keeps the whole input plus
position/read_position indices and the current byte ch; here input is
the not-yet-read suffix input[read_position..] and ch the current byte. -/
structure Lexer where
  input : List Char
  ch : Char

/-- Lexer::read_char: advance to the next character, 0 sentinel at end. -/
def Lexer.read_char (l : Lexer) : Lexer :=
  match l.input with
  | [] => { input := [], ch := null_char }
  | c :: rest => { input := rest, ch := c }

/-- Lexer::peek_char. -/
def Lexer.peek_char (l : Lexer) : Char :=
  match l.input with
  | [] => null_char
  | c :: _ => c

/-- Lexer::new: start with ch = 0 and read the first character. -/
def Lexer.new (input : List Char) : Lexer :=
  Lexer.read_char { input := input, ch := null_char }

/-- The loop of Lexer::skip_whitespace, on the current character and
the unread input (structural recursion on the input list). -/
def skip_whitespace_aux (ch : Char) : List Char → Lexer
  | [] =>
    if is_whitespace ch then { input := [], ch := null_char }
    else { input := [], ch := ch }
  | c :: rest =>
    if is_whitespace ch then skip_whitespace_aux c rest
    else { input := c :: rest, ch := ch }

/-- Lexer::skip_whitespace. -/
def Lexer.skip_whitespace (l : Lexer) : Lexer :=
  skip_whitespace_aux l.ch l.input

/-- The scanning loop of Lexer::read_identifier: collect the letters
starting at the current character, leaving ch on the first non-letter
(structural recursion on the input list). -/
def read_ident_chars_aux (ch : Char) : List Char → List Char × Lexer
  | [] =>
    if is_letter ch then ([ch], { input := [], ch := null_char })
    else ([], { input := [], ch := ch })
  | c :: rest =>
    if is_letter ch then
      match read_ident_chars_aux c rest with
      | (cs, l1) => (ch :: cs, l1)
    else ([], { input := c :: rest, ch := ch })

/-- Lexer::read_identifier. -/
def Lexer.read_identifier (l : Lexer) : String × Lexer :=
  match read_ident_chars_aux l.ch l.input with
  | (cs, l1) => (String.mk cs, l1)

/-- The scanning loop of Lexer::read_number (structural recursion on
the input list). -/
def read_number_chars_aux (ch : Char) : List Char → List Char × Lexer
  | [] =>
    if is_digit ch then ([ch], { input := [], ch := null_char })
    else ([], { input := [], ch := ch })
  | c :: rest =>
    if is_digit ch then
      match read_number_chars_aux c rest with
      | (cs, l1) => (ch :: cs, l1)
    else ([], { input := c :: rest, ch := ch })

/-- Lexer::read_number. -/
def Lexer.read_number (l : Lexer) : String × Lexer :=
  match read_number_chars_aux l.ch l.input with
  | (cs, l1) => (String.mk cs, l1)

/-- Lexer::next_token from src/lexer.rs.  Single-character tokens and the
catch-all perform the trailing read_char; identifier and number arms
return directly, exactly as the Rust match does. -/
def Lexer.next_token (l : Lexer) : Token × Lexer :=
  let l := l.skip_whitespace
  if l.ch == '=' then
    if l.peek_char == '=' then
      let l := l.read_char
      ({ kind := .Equal, literal := "==" }, l.read_char)
    else ({ kind := .Assign, literal := "=" }, l.read_char)
  else if l.ch == '+' then ({ kind := .Plus, literal := "+" }, l.read_char)
  else if l.ch == '-' then ({ kind := .Minus, literal := "-" }, l.read_char)
  else if l.ch == '/' then ({ kind := .Slash, literal := "/" }, l.read_char)
  else if l.ch == '*' then ({ kind := .Aster, literal := "*" }, l.read_char)
  else if l.ch == '!' then
    if l.peek_char == '=' then
      let l := l.read_char
      ({ kind := .NotEqual, literal := "!=" }, l.read_char)
    else ({ kind := .Bang, literal := "!" }, l.read_char)
  else if l.ch == ';' then ({ kind := .Semicolon, literal := ";" }, l.read_char)
  else if l.ch == '(' then ({ kind := .Lparen, literal := "(" }, l.read_char)
  else if l.ch == ')' then ({ kind := .Rparen, literal := ")" }, l.read_char)
  else if l.ch == ',' then ({ kind := .Comma, literal := "," }, l.read_char)
  else if l.ch == lbrace_char then
    ({ kind := .Lbrace, literal := "\x7b" }, l.read_char)
  else if l.ch == rbrace_char then
    ({ kind := .Rbrace, literal := "\x7d" }, l.read_char)
  else if l.ch == '>' then
    ({ kind := .GreaterThan, literal := ">" }, l.read_char)
  else if l.ch == '<' then ({ kind := .LessThan, literal := "<" }, l.read_char)
  else if is_letter l.ch then
    match l.read_identifier with
    | (literal, l1) => ({ kind := look_up_ident literal, literal := literal }, l1)
  else if is_digit l.ch then
    match l.read_number with
    | (literal, l1) => ({ kind := .Int, literal := literal }, l1)
  else ({ kind := .Eof, literal := "" }, l.read_char)

/-- MonkeyError from src/errors.rs. -/
inductive MonkeyError where
  | UnexpectedToken (expected : TokenKind) (got : Token)
  | InvalidToken (got : Token)
  | IntError (literal : String)

/-- How a run of the parser can fail: a returned error, a Rust panic
(parse_prefix's panic! arm), or fuel exhaustion of the model. -/
inductive ParserFailure where
  | err (e : MonkeyError)
  | panicked
  | outOfFuel

/-- Result type of the parser functions. -/
abbrev PResult (α : Type) : Type := Except ParserFailure α

/-- Parser from src/parser.rs: lexer plus two tokens of lookahead. -/
structure Parser where
  lexer : Lexer
  cur_token : Token
  peek_token : Token

/-- Parser::next_token. -/
def Parser.next_token (p : Parser) : Parser :=
  match p.lexer.next_token with
  | (t, lx) => { lexer := lx, cur_token := p.peek_token, peek_token := t }

/-- The Eof placeholder Parser::new starts both lookahead slots with. -/
def eof_token : Token := { kind := .Eof, literal := "" }

/-- Parser::new: prime cur_token and peek_token with two reads. -/
def Parser.new (lx : Lexer) : Parser :=
  Parser.next_token
    (Parser.next_token { lexer := lx, cur_token := eof_token, peek_token := eof_token })

/-- Parser::cur_token_is. -/
def Parser.cur_token_is (p : Parser) (tok : TokenKind) : Bool :=
  p.cur_token.kind == tok

/-- Parser::peek_token_is. -/
def Parser.peek_token_is (p : Parser) (tok : TokenKind) : Bool :=
  p.peek_token.kind == tok

/-- Parser::expect_peek: advance when the peek token matches. -/
def Parser.expect_peek (p : Parser) (tok : TokenKind) : Bool × Parser :=
  if p.peek_token_is tok then (true, p.next_token) else (false, p)

/-- Parser::cur_precedence. -/
def Parser.cur_precedence (p : Parser) : Precedence :=
  p.cur_token.get_precedence

/-- Parser::peek_precedence. -/
def Parser.peek_precedence (p : Parser) : Precedence :=
  p.peek_token.get_precedence

/-- Decimal accumulation for parse_i64. -/
def digits_to_nat : List Char → Nat → Option Nat
  | [], acc => some acc
  | c :: rest, acc =>
    if is_digit c then digits_to_nat rest (acc * 10 + (c.toNat - 48)) else none

/-- Rust's str::parse into i64 for the digit-string literals the lexer
produces: fails on an empty string, a non-digit, or a value above
i64::MAX. -/
def parse_i64 (s : String) : Option Int :=
  match s.data with
  | [] => none
  | c :: rest =>
    match digits_to_nat (c :: rest) 0 with
    | some n =>
      if Nat.ble n 9223372036854775807 then some (Int.ofNat n) else none
    | none => none

/-- Parser::parse_identifier. -/
def Parser.parse_identifier (p : Parser) : PResult (Expression × Parser) :=
  .ok (.Ident p.cur_token.literal, p)

/-- Parser::parse_int. -/
def Parser.parse_int (p : Parser) : PResult (Expression × Parser) :=
  match parse_i64 p.cur_token.literal with
  | some n => .ok (.Int n, p)
  | none => .error (.err (.IntError p.cur_token.literal))

/-- Parser::parse_boolean. -/
def Parser.parse_boolean (p : Parser) : PResult (Expression × Parser) :=
  .ok (.Boolean (p.cur_token_is .True), p)

/-- The helper the Rust code calls Parser::parse_prefix: dispatches on
identifier or integer current tokens and panics otherwise. -/
def Parser.parse_prefix_rule (p : Parser) : PResult (Expression × Parser) :=
  match p.cur_token.kind with
  | .Ident => p.parse_identifier
  | .Int => p.parse_int
  | _ => .error .panicked

mutual
/-- Loop body of Parser::parse_program. -/
def parse_program_loop : Nat → Parser → List Statement → PResult (List Statement × Parser)
  | 0, _, _ => .error .outOfFuel
  | fuel+1, p, acc =>
    if p.cur_token_is .Eof then .ok (acc, p)
    else do
      let (stmt, p1) ← parse_statement fuel p
      parse_program_loop fuel p1.next_token (acc ++ [stmt])
termination_by structural fuel _ _ => fuel

/-- Parser::parse_statement. -/
def parse_statement : Nat → Parser → PResult (Statement × Parser)
  | 0, _ => .error .outOfFuel
  | fuel+1, p =>
    match p.cur_token.kind with
    | .Let => parse_let_statement fuel p
    | .Return => parse_return_statement fuel p
    | _ => parse_expression_statement fuel p
termination_by structural fuel _ => fuel

/-- Parser::parse_let_statement. -/
def parse_let_statement : Nat → Parser → PResult (Statement × Parser)
  | 0, _ => .error .outOfFuel
  | fuel+1, p =>
    match p.expect_peek .Ident with
    | (ok1, p) =>
    if !ok1 then .error (.err (.UnexpectedToken .Ident p.cur_token))
    else
      let ident := Expression.Ident p.cur_token.literal
      match p.expect_peek .Assign with
      | (ok2, p) =>
      if !ok2 then .error (.err (.UnexpectedToken .Assign p.peek_token))
      else do
        let p := p.next_token
        let (value, p) ← parse_expression fuel p .Lowest
        let p := if p.peek_token_is .Semicolon then p.next_token else p
        .ok (Statement.Let ident value, p)
termination_by structural fuel _ => fuel

/-- Parser::parse_return_statement. -/
def parse_return_statement : Nat → Parser → PResult (Statement × Parser)
  | 0, _ => .error .outOfFuel
  | fuel+1, p => do
    let p := p.next_token
    let (value, p) ← parse_expression fuel p .Lowest
    let p := if p.peek_token_is .Semicolon then p.next_token else p
    .ok (Statement.Return value, p)
termination_by structural fuel _ => fuel

/-- Parser::parse_expression_statement. -/
def parse_expression_statement : Nat → Parser → PResult (Statement × Parser)
  | 0, _ => .error .outOfFuel
  | fuel+1, p => do
    let (value, p) ← parse_expression fuel p .Lowest
    let p := if p.peek_token_is .Semicolon then p.next_token else p
    .ok (Statement.Expression value, p)
termination_by structural fuel _ => fuel

/-- Parser::parse_expression: prefix dispatch on the current token, then
the precedence-climbing loop. -/
def parse_expression : Nat → Parser → Precedence → PResult (Expression × Parser)
  | 0, _, _ => .error .outOfFuel
  | fuel+1, p, precedence => do
    let (left, p1) ← (match p.cur_token.kind with
      | .Ident => p.parse_prefix_rule
      | .Int => p.parse_int
      | .True => p.parse_boolean
      | .False => p.parse_boolean
      | .Bang => parse_prefix_expression fuel p
      | .Minus => parse_prefix_expression fuel p
      | .Lparen => parse_group_expression fuel p
      | .If => parse_if_expression fuel p
      | .Function => parse_function_literal fuel p
      | _ => .error (.err (.InvalidToken p.cur_token)))
    parse_expression_loop fuel p1 precedence left
termination_by structural fuel _ _ => fuel

/-- The while loop of Parser::parse_expression.  The condition re-checks
peek_token each iteration; the catch-all arm leaves everything unchanged
(in Rust that would spin forever; here it burns fuel). -/
def parse_expression_loop : Nat → Parser → Precedence → Expression → PResult (Expression × Parser)
  | 0, _, _, _ => .error .outOfFuel
  | fuel+1, p, precedence, left =>
    if !(p.peek_token_is .Semicolon) && Precedence.lt precedence p.peek_precedence then
      match p.peek_token.kind with
      | .Plus | .Minus | .Slash | .Aster | .Equal
      | .NotEqual | .LessThan | .GreaterThan => do
        let p := p.next_token
        let (e, p1) ← parse_infix_expression fuel p left
        parse_expression_loop fuel p1 precedence e
      | .Lparen => do
        let p := p.next_token
        let (e, p1) ← parse_call_expression fuel p left
        parse_expression_loop fuel p1 precedence e
      | _ => parse_expression_loop fuel p precedence left
    else .ok (left, p)
termination_by structural fuel _ _ _ => fuel

/-- Parser::parse_prefix_expression. -/
def parse_prefix_expression : Nat → Parser → PResult (Expression × Parser)
  | 0, _ => .error .outOfFuel
  | fuel+1, p => do
    let op := p.cur_token.literal
    let p := p.next_token
    let (right, p1) ← parse_expression fuel p .PrefixOp
    .ok (Expression.PrefixExpr op right, p1)
termination_by structural fuel _ => fuel

/-- Parser::parse_infix_expression. -/
def parse_infix_expression : Nat → Parser → Expression → PResult (Expression × Parser)
  | 0, _, _ => .error .outOfFuel
  | fuel+1, p, left => do
    let op := p.cur_token.literal
    let precedence := p.cur_precedence
    let p := p.next_token
    let (right, p1) ← parse_expression fuel p precedence
    .ok (Expression.InfixExpr left op right, p1)
termination_by structural fuel _ _ => fuel

/-- Parser::parse_group_expression.  (The Rust version calls expect_peek
even when the inner parse failed, and can then report the Rparen error
instead; which error object comes back on a doomed parse is not
claim-relevant, so the inner error is propagated directly here.) -/
def parse_group_expression : Nat → Parser → PResult (Expression × Parser)
  | 0, _ => .error .outOfFuel
  | fuel+1, p => do
    let p := p.next_token
    let (expr, p1) ← parse_expression fuel p .Lowest
    match p1.expect_peek .Rparen with
    | (ok1, p2) =>
    if !ok1 then .error (.err (.UnexpectedToken .Rparen p2.cur_token))
    else .ok (expr, p2)
termination_by structural fuel _ => fuel

/-- Parser::parse_if_expression. -/
def parse_if_expression : Nat → Parser → PResult (Expression × Parser)
  | 0, _ => .error .outOfFuel
  | fuel+1, p =>
    match p.expect_peek .Lparen with
    | (ok1, p) =>
    if !ok1 then .error (.err (.UnexpectedToken .Lparen p.peek_token))
    else do
      let p := p.next_token
      let (condition, p) ← parse_expression fuel p .Lowest
      match p.expect_peek .Rparen with
      | (ok2, p) =>
      if !ok2 then .error (.err (.UnexpectedToken .Rparen p.peek_token))
      else
        match p.expect_peek .Lbrace with
        | (ok3, p) =>
        if !ok3 then .error (.err (.UnexpectedToken .Lbrace p.peek_token))
        else do
          let (consequence, p) ← parse_block_statement fuel p
          if p.peek_token_is .Else then
            let p := p.next_token
            match p.expect_peek .Lbrace with
            | (ok4, p) =>
            if !ok4 then .error (.err (.UnexpectedToken .Lbrace p.peek_token))
            else do
              let (alternative, p) ← parse_block_statement fuel p
              .ok (Expression.If condition consequence (some alternative), p)
          else .ok (Expression.If condition consequence none, p)
termination_by structural fuel _ => fuel

/-- Parser::parse_block_statement: skip the brace, then loop. -/
def parse_block_statement : Nat → Parser → PResult (BlockStatement × Parser)
  | 0, _ => .error .outOfFuel
  | fuel+1, p => parse_block_loop fuel p.next_token []
termination_by structural fuel _ => fuel

/-- The while loop of Parser::parse_block_statement: collect statements
until the current token is Rbrace or Eof. -/
def parse_block_loop : Nat → Parser → List Statement → PResult (BlockStatement × Parser)
  | 0, _, _ => .error .outOfFuel
  | fuel+1, p, acc =>
    if !(p.cur_token_is .Rbrace) && !(p.cur_token_is .Eof) then do
      let (stmt, p1) ← parse_statement fuel p
      parse_block_loop fuel p1.next_token (acc ++ [stmt])
    else .ok (BlockStatement.mk acc, p)
termination_by structural fuel _ _ => fuel

/-- Parser::parse_function_literal. -/
def parse_function_literal : Nat → Parser → PResult (Expression × Parser)
  | 0, _ => .error .outOfFuel
  | fuel+1, p =>
    match p.expect_peek .Lparen with
    | (ok1, p) =>
    if !ok1 then .error (.err (.UnexpectedToken .Lparen p.cur_token))
    else do
      let (parameters, p) ← parse_function_parameters fuel p
      match p.expect_peek .Lbrace with
      | (ok2, p) =>
      if !ok2 then .error (.err (.UnexpectedToken .Lbrace p.cur_token))
      else do
        let (body, p) ← parse_block_statement fuel p
        .ok (Expression.Function parameters body, p)
termination_by structural fuel _ => fuel

/-- Parser::parse_function_parameters. -/
def parse_function_parameters : Nat → Parser → PResult (List String × Parser)
  | 0, _ => .error .outOfFuel
  | fuel+1, p =>
    if p.peek_token_is .Rparen then .ok ([], p.next_token)
    else do
      let p := p.next_token
      let (idents, p) ← parse_function_parameters_loop fuel p [p.cur_token.literal]
      match p.expect_peek .Rparen with
      | (ok1, p) =>
      if !ok1 then .error (.err (.UnexpectedToken .Rparen p.cur_token))
      else .ok (idents, p)

/-- The comma loop of Parser::parse_function_parameters. -/
def parse_function_parameters_loop : Nat → Parser → List String → PResult (List String × Parser)
  | 0, _, _ => .error .outOfFuel
  | fuel+1, p, acc =>
    if p.peek_token_is .Comma then
      let p := (p.next_token).next_token
      parse_function_parameters_loop fuel p (acc ++ [p.cur_token.literal])
    else .ok (acc, p)
termination_by structural fuel _ _ => fuel

/-- Parser::parse_call_expression. -/
def parse_call_expression : Nat → Parser → Expression → PResult (Expression × Parser)
  | 0, _, _ => .error .outOfFuel
  | fuel+1, p, function => do
    let (arguments, p1) ← parse_call_arguments fuel p
    .ok (Expression.Call function arguments, p1)
termination_by structural fuel _ _ => fuel

/-- Parser::parse_call_arguments. -/
def parse_call_arguments : Nat → Parser → PResult (List Expression × Parser)
  | 0, _ => .error .outOfFuel
  | fuel+1, p =>
    if p.peek_token_is .Rparen then .ok ([], p.next_token)
    else do
      let p := p.next_token
      let (first, p) ← parse_expression fuel p .Lowest
      let (args, p) ← parse_call_arguments_loop fuel p [first]
      match p.expect_peek .Rparen with
      | (ok1, p) =>
      if !ok1 then .error (.err (.UnexpectedToken .Rparen p.cur_token))
      else .ok (args, p)
termination_by structural fuel _ => fuel

/-- The comma loop of Parser::parse_call_arguments. -/
def parse_call_arguments_loop : Nat → Parser → List Expression → PResult (List Expression × Parser)
  | 0, _, _ => .error .outOfFuel
  | fuel+1, p, acc =>
    if p.peek_token_is .Comma then do
      let p := (p.next_token).next_token
      let (e, p1) ← parse_expression fuel p .Lowest
      parse_call_arguments_loop fuel p1 (acc ++ [e])
    else .ok (acc, p)
termination_by structural fuel _ _ => fuel

end

/-- Parser::parse_program. -/
def parse_program (fuel : Nat) (p : Parser) : PResult Program :=
  match fuel with
  | 0 => .error .outOfFuel
  | fuel+1 => do
    let (statements, _) ← parse_program_loop fuel p []
    .ok { statements := statements }

/-- Parse a source string the way main.rs wires lexer and parser together. -/
def parse_program_str (fuel : Nat) (input : String) : PResult Program :=
  parse_program fuel (Parser.new (Lexer.new input.data))

mutual
/-- Object from src/object.rs. -/
inductive Object where
  | Int (value : Int)
  | Boolean (value : Bool)
  | Null
  | Return (value : Object)
  | Function (parameters : List String) (body : BlockStatement)
      (environment : Environment)
  | Error (message : String)

/-- Environment from src/environment.rs: a store plus optional outer
environment.  The Rust struct holds the store by value and clones it
wherever Environment is cloned, so an environment is a plain value. -/
inductive Environment where
  | mk (store : List (String × Object)) (outer : Option Environment)
end

/-- Field accessor for Environment.store. -/
def Environment.store : Environment → List (String × Object)
  | .mk s _ => s

/-- Field accessor for Environment.outer. -/
def Environment.outer : Environment → Option Environment
  | .mk _ o => o

/-- Environment::new. -/
def Environment.new : Environment := .mk [] none

/-- Environment::new_enclosed. -/
def Environment.new_enclosed (outer : Environment) : Environment :=
  .mk [] (some outer)

/-- HashMap::get on the modelled store (newest binding for a key wins). -/
def store_lookup : List (String × Object) → String → Option Object
  | [], _ => none
  | kv :: rest, name => if kv.1 == name then some kv.2 else store_lookup rest name

/-- Environment::get: look in the own store, then recurse outward. -/
def Environment.get : Environment → String → Option Object
  | .mk store outer, name =>
    match store_lookup store name with
    | some obj => some obj
    | none =>
      match outer with
      | some e => Environment.get e name
      | none => none

/-- Environment::set without its return value; the Rust method also
returns the inserted object and callers are modelled accordingly. -/
def Environment.set (env : Environment) (name : String) (obj : Object) : Environment :=
  match env with
  | .mk store outer => .mk ((name, obj) :: store) outer

/-- Object::type_info from src/object.rs.  The Rust match sends Error to
the string FUNCTION and hits unreachable!() - a panic, modelled as
none - for Null, Return and Function values. -/
def Object.type_info : Object → Option String
  | .Int _ => some "INTEGER"
  | .Boolean _ => some "BOOLEAN"
  | .Error _ => some "FUNCTION"
  | _ => none

/-- How evaluation can fail to produce a value: a Rust panic, or fuel
exhaustion of the model (Rust evaluation that diverges). -/
inductive EvalFailure where
  | panicked
  | outOfFuel
deriving DecidableEq

/-- Result type of the stateful evaluator functions: object plus the
environment as left behind by &mut self. -/
abbrev EResult : Type := Except EvalFailure (Object × Environment)

/-- Evaluator::is_truthy. -/
def is_truthy : Object → Bool
  | .Null => false
  | .Boolean value => value
  | _ => true

/-- Evaluator::evaluate_bang_operator_expression. -/
def evaluate_bang_operator_expression : Object → Object
  | .Boolean true => .Boolean false
  | .Boolean false => .Boolean true
  | .Null => .Boolean true
  | _ => .Boolean false

/-- Evaluator::evaluate_minus_prefix_operator_expression.  The error arm
formats with type_info, which panics on Null, Return and Function. -/
def evaluate_minus_prefix_operator_expression (right : Object) : Except EvalFailure Object :=
  match right with
  | .Int value => .ok (.Int (-value))
  | _ =>
    match right.type_info with
    | some t => .ok (.Error ("unknown operator: -" ++ t))
    | none => .error .panicked

/-- Evaluator::evaluate_prefix_expression. -/
def evaluate_prefix_expression (op : String) (right : Object) : Except EvalFailure Object :=
  if op == "!" then .ok (evaluate_bang_operator_expression right)
  else if op == "-" then evaluate_minus_prefix_operator_expression right
  else
    match right.type_info with
    | some t => .ok (.Error ("unknown operator: " ++ op ++ t))
    | none => .error .panicked

/-- Evaluator::evaluate_int_infix_expression.  Rust i64 division
truncates toward zero and panics on a zero divisor. -/
def evaluate_int_infix_expression (op : String) (left right : Int) : Except EvalFailure Object :=
  match op with
  | "+" => .ok (.Int (left + right))
  | "-" => .ok (.Int (left - right))
  | "*" => .ok (.Int (left * right))
  | "/" =>
    if right == 0 then .error .panicked else .ok (.Int (Int.tdiv left right))
  | "<" => .ok (.Boolean (decide (left < right)))
  | ">" => .ok (.Boolean (decide (right < left)))
  | "==" => .ok (.Boolean (left == right))
  | "!=" => .ok (.Boolean (!(left == right)))
  | _ => .ok (.Error ("unknown operator: INTEGER " ++ op ++ " INTEGER"))

/-- The two guarded catch-all arms of Evaluator::evaluate_infix_expression:
compare type_info strings (left first, panicking where type_info does)
and report a type mismatch or an unknown operator. -/
def type_mismatch_or_unknown (op : String) (l r : Object) : Except EvalFailure Object :=
  match l.type_info with
  | none => .error .panicked
  | some tl =>
    match r.type_info with
    | none => .error .panicked
    | some tr =>
      if tl != tr then .ok (.Error ("type mismatch: " ++ tl ++ " " ++ op ++ " " ++ tr))
      else .ok (.Error ("unknown operator: " ++ tl ++ " " ++ op ++ " " ++ tr))

/-- Evaluator::evaluate_infix_expression: integers first for any
operator, then boolean equality, then the guarded catch-alls. -/
def evaluate_infix_expression (op : String) (left right : Object) : Except EvalFailure Object :=
  match left, right with
  | .Int l, .Int r => evaluate_int_infix_expression op l r
  | l, r =>
    if op == "==" then
      match l, r with
      | .Boolean a, .Boolean b => .ok (.Boolean (a == b))
      | _, _ => type_mismatch_or_unknown op l r
    else if op == "!=" then
      match l, r with
      | .Boolean a, .Boolean b => .ok (.Boolean (!(a == b)))
      | _, _ => type_mismatch_or_unknown op l r
    else type_mismatch_or_unknown op l r

/-- Evaluator::evaluate_identifier. -/
def evaluate_identifier (env : Environment) (name : String) : Object :=
  match env.get name with
  | some obj => obj
  | none => .Error ("identifier not found: " ++ name)

/-- The parameter-binding loop of Evaluator::apply_function: for the
i-th parameter read args[i] - a panic when the index is out of
bounds - and insert it into the call environment. -/
def bind_parameters : List String → Nat → List Object → Environment → Except EvalFailure Environment
  | [], _, _, env => .ok env
  | param :: rest, i, args, env =>
    match args.get? i with
    | none => .error .panicked
    | some a => bind_parameters rest (i+1) args (env.set param a)

mutual
/-- The shared statement loop of Evaluator::evaluate and
Evaluator::evaluate_block_statement (their Rust bodies are identical):
keep the last value, unwrap a Return and stop, stop on an Error. -/
def evaluate_statement_list : Nat → Environment → Object → List Statement → EResult
  | 0, _, _, _ => .error .outOfFuel
  | _+1, env, obj, [] => .ok (obj, env)
  | fuel+1, env, _, stmt :: rest => do
    let (obj, env) ← evaluate_statement fuel env stmt
    match obj with
    | .Return value => .ok (value, env)
    | .Error message => .ok (.Error message, env)
    | _ => evaluate_statement_list fuel env obj rest

/-- Evaluator::evaluate_statement. -/
def evaluate_statement : Nat → Environment → Statement → EResult
  | 0, _, _ => .error .outOfFuel
  | fuel+1, env, .Expression expr => evaluate_expression fuel env expr
  | fuel+1, env, .Let ident value => evaluate_let_statement fuel env ident value
  | fuel+1, env, .Return expr => evaluate_return_statement fuel env expr

/-- Evaluator::evaluate_let_statement: a non-Ident pattern is the Rust
unreachable!() panic; Environment::set returns the inserted object. -/
def evaluate_let_statement : Nat → Environment → Expression → Expression → EResult
  | 0, _, _, _ => .error .outOfFuel
  | fuel+1, env, ident, expr =>
    match ident with
    | .Ident name => do
      let (obj, env) ← evaluate_expression fuel env expr
      match obj with
      | .Error message => .ok (.Error message, env)
      | _ => .ok (obj, env.set name obj)
    | _ => .error .panicked

/-- Evaluator::evaluate_return_statement. -/
def evaluate_return_statement : Nat → Environment → Expression → EResult
  | 0, _, _ => .error .outOfFuel
  | fuel+1, env, expr => do
    let (obj, env) ← evaluate_expression fuel env expr
    match obj with
    | .Error message => .ok (.Error message, env)
    | _ => .ok (.Return obj, env)

/-- Evaluator::evaluate_expression. -/
def evaluate_expression : Nat → Environment → Expression → EResult
  | 0, _, _ => .error .outOfFuel
  | fuel+1, env, expr =>
    match expr with
    | .Int value => .ok (.Int value, env)
    | .Ident name => .ok (evaluate_identifier env name, env)
    | .Boolean value => .ok (.Boolean value, env)
    | .PrefixExpr op right => do
      let (r, env) ← evaluate_expression fuel env right
      match r with
      | .Error message => .ok (.Error message, env)
      | _ => do
        let o ← evaluate_prefix_expression op r
        .ok (o, env)
    | .InfixExpr left op right => do
      let (l, env) ← evaluate_expression fuel env left
      match l with
      | .Error message => .ok (.Error message, env)
      | _ => do
        let (r, env) ← evaluate_expression fuel env right
        match r with
        | .Error message => .ok (.Error message, env)
        | _ => do
          let o ← evaluate_infix_expression op l r
          .ok (o, env)
    | .If condition consequence alternative =>
      evaluate_if_expression fuel env condition consequence alternative
    | .Function parameters body =>
      .ok (.Function parameters body env, env)
    | .Call function arguments => do
      let (func, env) ← evaluate_expression fuel env function
      match func with
      | .Error message => .ok (.Error message, env)
      | _ => do
        let (args, env) ← evaluate_expressions fuel env arguments
        let o ← apply_function fuel func args
        .ok (o, env)

/-- Evaluator::evaluate_expressions: arguments left to right, stopping
at the first Error and returning only that error in the list. -/
def evaluate_expressions : Nat → Environment → List Expression → Except EvalFailure (List Object × Environment)
  | 0, _, _ => .error .outOfFuel
  | _+1, env, [] => .ok ([], env)
  | fuel+1, env, expr :: rest => do
    let (obj, env) ← evaluate_expression fuel env expr
    match obj with
    | .Error message => .ok ([.Error message], env)
    | _ => do
      let (objs, env) ← evaluate_expressions fuel env rest
      .ok (obj :: objs, env)

/-- Evaluator::apply_function: bind parameters into a fresh enclosed
environment, run the body, unwrap a Return wrapper.  The non-function
arm formats with type_info (panicking on Null and Return callees). -/
def apply_function : Nat → Object → List Object → Except EvalFailure Object
  | 0, _, _ => .error .outOfFuel
  | fuel+1, func, args =>
    match func with
    | .Function parameters body environment => do
      let env ← bind_parameters parameters 0 args (Environment.new_enclosed environment)
      let (obj, _) ← evaluate_block_statement fuel env body
      match obj with
      | .Return value => .ok value
      | _ => .ok obj
    | _ =>
      match func.type_info with
      | some t => .ok (.Error ("not a function: " ++ t))
      | none => .error .panicked

/-- Evaluator::evaluate_if_expression. -/
def evaluate_if_expression : Nat → Environment → Expression → BlockStatement → Option BlockStatement → EResult
  | 0, _, _, _, _ => .error .outOfFuel
  | fuel+1, env, condition, consequence, alternative => do
    let (c, env) ← evaluate_expression fuel env condition
    match c with
    | .Error message => .ok (.Error message, env)
    | _ =>
      if is_truthy c then evaluate_block_statement fuel env consequence
      else
        match alternative with
        | some alt => evaluate_block_statement fuel env alt
        | none => .ok (.Null, env)

/-- Evaluator::evaluate_block_statement (the shared loop, starting from
Null exactly as the Rust local obj does). -/
def evaluate_block_statement : Nat → Environment → BlockStatement → EResult
  | 0, _, _ => .error .outOfFuel
  | fuel+1, env, block => evaluate_statement_list fuel env .Null block.statements
end

/-- Evaluator::evaluate: the top-level entry point, the same loop. -/
def evaluate (fuel : Nat) (env : Environment) (program : Program) : EResult :=
  match fuel with
  | 0 => .error .outOfFuel
  | fuel+1 => evaluate_statement_list fuel env .Null program.statements

/-- The object component of a top-level evaluation. -/
def evaluate_value (fuel : Nat) (env : Environment) (program : Program) : Except EvalFailure Object :=
  match evaluate fuel env program with
  | .ok (o, _) => .ok o
  | .error e => .error e

/-- Outcome of running a source string through the full pipeline. -/
inductive RunOutcome where
  | parseFailed (e : ParserFailure)
  | evalFailed (e : EvalFailure)
  | result (o : Object)

/-- The full pipeline of main.rs on one input line, started in a fresh
environment: lex, parse, evaluate. -/
def run_program (fuel : Nat) (input : String) : RunOutcome :=
  match parse_program_str fuel input with
  | .error e => .parseFailed e
  | .ok program =>
    match evaluate fuel Environment.new program with
    | .error e => .evalFailed e
    | .ok (o, _) => .result o

/-
Return-freedom: an object (or environment) that contains no Return
wrapper anywhere, including inside the environments captured by function
values.  Every environment the evaluator itself builds is return-free;
an arbitrary caller-supplied starting environment need not be.
-/

mutual
/-- No Return wrapper anywhere inside this object. -/
def return_free : Object → Bool
  | .Int _ => true
  | .Boolean _ => true
  | .Null => true
  | .Return _ => false
  | .Function _ _ env => return_free_env env
  | .Error _ => true

/-- No Return wrapper anywhere inside this environment. -/
def return_free_env : Environment → Bool
  | .mk store outer =>
    return_free_store store &&
      (match outer with
       | some e => return_free_env e
       | none => true)

/-- No Return wrapper anywhere inside this store. -/
def return_free_store : List (String × Object) → Bool
  | [] => true
  | kv :: rest => return_free kv.2 && return_free_store rest
end

/-- A statement value as seen by the statement loops: either return-free
itself, or a Return wrapper with a return-free payload. -/
def return_free_ret : Object → Bool
  | .Return v => return_free v
  | o => return_free o

/-- The statement loop of the evaluator runs through a statement prefix
without short-circuiting: each statement evaluates successfully to a
value that is neither a Return wrapper nor an Error, threading the
environment, the fuel and the last value. -/
inductive falls_through : Nat → Environment → Object → List Statement →
    Nat → Environment → Object → Prop where
  | nil (fuel : Nat) (env : Environment) (obj : Object) :
      falls_through fuel env obj [] fuel env obj
  | cons (fuel : Nat) (env : Environment) (obj : Object) (stmt : Statement)
      (rest : List Statement) (o : Object) (env1 : Environment)
      (fuel2 : Nat) (env2 : Environment) (o2 : Object)
      (heval : evaluate_statement fuel env stmt = .ok (o, env1))
      (hnr : ∀ v, o ≠ .Return v) (hne : ∀ m, o ≠ .Error m)
      (htail : falls_through fuel env1 o rest fuel2 env2 o2) :
      falls_through (fuel+1) env obj (stmt :: rest) fuel2 env2 o2

/-
Concrete programs used by the claims, as abstract syntax.  The parser of
this repository cannot produce Call nodes (Lparen gets precedence Lowest
in Token.get_precedence, so the call branch of the expression loop is
unreachable); claims about call evaluation are therefore settled against
the evaluator on directly constructed syntax trees.
-/

/-- fn(x, y) \x7b x + y \x7d as syntax. -/
def add_function_ast : Expression :=
  .Function ["x", "y"]
    (.mk [Statement.Expression (.InfixExpr (.Ident "x") "+" (.Ident "y"))])

/-- let add = fn(x, y) \x7b x + y \x7d; add(true + false, 2); as syntax. -/
def call_error_arg_prog : Program :=
  { statements := [
      Statement.Let (.Ident "add") add_function_ast,
      Statement.Expression (.Call (.Ident "add")
        [.InfixExpr (.Boolean true) "+" (.Boolean false), .Int 2])] }

/-- let f = fn(x) \x7b 5 \x7d; f(true + false); as syntax. -/
def call_error_arg_one_param_prog : Program :=
  { statements := [
      Statement.Let (.Ident "f")
        (.Function ["x"] (.mk [Statement.Expression (.Int 5)])),
      Statement.Expression (.Call (.Ident "f")
        [.InfixExpr (.Boolean true) "+" (.Boolean false)])] }

/-- let f = fn() \x7b g \x7d; let g = 1; f(); as syntax. -/
def late_binding_prog : Program :=
  { statements := [
      Statement.Let (.Ident "f")
        (.Function [] (.mk [Statement.Expression (.Ident "g")])),
      Statement.Let (.Ident "g") (.Int 1),
      Statement.Expression (.Call (.Ident "f") [])] }

/-- let newAdder = fn(x) \x7b fn(y) \x7b x + y \x7d; \x7d;
let addTwo = newAdder(2); addTwo(3); as syntax. -/
def new_adder_prog : Program :=
  { statements := [
      Statement.Let (.Ident "newAdder")
        (.Function ["x"] (.mk [Statement.Expression
          (.Function ["y"] (.mk [Statement.Expression
            (.InfixExpr (.Ident "x") "+" (.Ident "y"))]))])),
      Statement.Let (.Ident "addTwo") (.Call (.Ident "newAdder") [.Int 2]),
      Statement.Expression (.Call (.Ident "addTwo") [.Int 3])] }

/-- A starting environment holding a nested Return wrapper, something the
evaluator itself never constructs but the public Environment::set
accepts. -/
def nested_return_env : Environment :=
  Environment.new.set "x" (.Return (.Return (.Int 1)))

/-- The one-statement program x; as syntax. -/
def ident_x_prog : Program :=
  { statements := [Statement.Expression (.Ident "x")] }

theorem return_free_env_mk (store : List (String × Object)) (outer : Option Environment) :
    return_free_env (.mk store outer) =
      (return_free_store store &&
        (match outer with | some e => return_free_env e | none => true)) := by
  cases outer <;> simp [return_free_env]

theorem env_get_mk (store : List (String × Object)) (outer : Option Environment) (name : String) :
    Environment.get (.mk store outer) name =
      (match store_lookup store name with
       | some obj => some obj
       | none =>
         match outer with
         | some e => Environment.get e name
         | none => none) := by
  cases outer with
  | none => rw [Environment.get.eq_2]
  | some e => rw [Environment.get.eq_1]

theorem store_lookup_return_free (st : List (String × Object)) (name : String) (o : Object)
    (hst : return_free_store st = true) (hl : store_lookup st name = some o) :
    return_free o = true := by
  induction st with
  | nil => exact Option.noConfusion hl
  | cons kv rest ih =>
    simp only [return_free_store, Bool.and_eq_true] at hst
    simp only [store_lookup] at hl
    by_cases h : kv.1 == name
    · simp [h] at hl; subst hl; exact hst.1
    · simp [h] at hl; exact ih hst.2 hl

theorem env_get_return_free (env : Environment) (name : String) :
    ∀ o, return_free_env env = true → Environment.get env name = some o →
      return_free o = true := by
  induction env, name using Environment.get.induct with
  | case1 store outer name obj hl =>
    intro o henv hg
    rw [return_free_env_mk, Bool.and_eq_true] at henv
    rw [env_get_mk, hl] at hg
    cases hg
    exact store_lookup_return_free store name _ henv.1 hl
  | case2 store name hl e ih =>
    intro o henv hg
    rw [return_free_env_mk, Bool.and_eq_true] at henv
    rw [env_get_mk, hl] at hg
    exact ih o henv.2 hg
  | case3 store name hl =>
    intro o henv hg
    rw [env_get_mk, hl] at hg
    cases hg

theorem set_return_free (env : Environment) (name : String) (o : Object)
    (henv : return_free_env env = true) (ho : return_free o = true) :
    return_free_env (env.set name o) = true := by
  cases env with
  | mk store outer =>
    rw [return_free_env_mk, Bool.and_eq_true] at henv
    rw [Environment.set, return_free_env_mk, Bool.and_eq_true]
    refine ⟨?_, henv.2⟩
    simp [return_free_store, ho, henv.1]

theorem new_enclosed_return_free (env : Environment)
    (henv : return_free_env env = true) :
    return_free_env (Environment.new_enclosed env) = true := by
  rw [Environment.new_enclosed, return_free_env_mk, Bool.and_eq_true]
  exact ⟨rfl, henv⟩

theorem return_free_imp_ret (o : Object) (h : return_free o = true) :
    return_free_ret o = true := by
  cases o <;> simp_all [return_free, return_free_ret]

theorem evaluate_identifier_return_free (env : Environment) (name : String)
    (henv : return_free_env env = true) :
    return_free (evaluate_identifier env name) = true := by
  rw [evaluate_identifier]
  cases hg : env.get name with
  | some o => exact env_get_return_free env name o henv hg
  | none => rfl

theorem bind_parameters_return_free (params : List String) :
    ∀ i args env env2, (∀ a ∈ args, return_free a = true) →
      return_free_env env = true →
      bind_parameters params i args env = .ok env2 →
      return_free_env env2 = true := by
  induction params with
  | nil =>
    intro i args env env2 _ henv hb
    rw [bind_parameters] at hb
    cases hb
    exact henv
  | cons param rest ih =>
    intro i args env env2 hargs henv hb
    rw [bind_parameters] at hb
    cases hget : args.get? i with
    | none => rw [hget] at hb; exact Except.noConfusion hb
    | some a =>
      rw [hget] at hb
      have ha : return_free a = true := hargs a (List.get?_mem hget)
      exact ih (i+1) args (env.set param a) env2 hargs (set_return_free env param a henv ha) hb


theorem minus_prefix_return_free (right : Object) (o : Object)
    (h : evaluate_minus_prefix_operator_expression right = .ok o) :
    return_free o = true := by
  cases right <;>
    simp only [evaluate_minus_prefix_operator_expression, Object.type_info] at h <;>
    first
      | (cases h; rfl)
      | exact Except.noConfusion h

theorem bang_return_free (right : Object) :
    return_free (evaluate_bang_operator_expression right) = true := by
  cases right with
  | Boolean b => cases b <;> rfl
  | Int v => rfl
  | Null => rfl
  | Return v => rfl
  | Function p b e => rfl
  | Error m => rfl

theorem prefix_return_free (op : String) (right : Object) (o : Object)
    (h : evaluate_prefix_expression op right = .ok o) :
    return_free o = true := by
  rw [evaluate_prefix_expression] at h
  by_cases h1 : op == "!"
  · simp only [h1, if_true] at h
    cases h
    exact bang_return_free right
  · simp only [h1, Bool.false_eq_true, if_false] at h
    by_cases h2 : op == "-"
    · simp only [h2, if_true] at h
      exact minus_prefix_return_free right o h
    · simp only [h2, Bool.false_eq_true, if_false] at h
      cases right <;> simp only [Object.type_info] at h <;>
        first
          | (cases h; rfl)
          | exact Except.noConfusion h

theorem int_infix_return_free (op : String) (l r : Int) (o : Object)
    (h : evaluate_int_infix_expression op l r = .ok o) :
    return_free o = true := by
  rw [evaluate_int_infix_expression.eq_def] at h
  split at h <;>
    first
      | (cases h; rfl)
      | (split at h
         · exact Except.noConfusion h
         · cases h; rfl)

theorem type_mismatch_or_unknown_return_free (op : String) (l r : Object) (o : Object)
    (h : type_mismatch_or_unknown op l r = .ok o) :
    return_free o = true := by
  rw [type_mismatch_or_unknown] at h
  cases hl : l.type_info with
  | none => simp only [hl] at h; exact Except.noConfusion h
  | some tl =>
    simp only [hl] at h
    cases hr : r.type_info with
    | none => simp only [hr] at h; exact Except.noConfusion h
    | some tr =>
      simp only [hr] at h
      by_cases hne : tl != tr
      · rw [if_pos hne] at h; cases h; rfl
      · rw [if_neg hne] at h; cases h; rfl

theorem infix_return_free (op : String) (l r : Object) (o : Object)
    (h : evaluate_infix_expression op l r = .ok o) :
    return_free o = true := by
  rw [evaluate_infix_expression.eq_def] at h
  split at h
  · exact int_infix_return_free op _ _ o h
  · by_cases h1 : op == "=="
    · simp only [h1, if_true] at h
      split at h
      · cases h; rfl
      · exact type_mismatch_or_unknown_return_free op _ _ o h
    · simp only [h1, Bool.false_eq_true, if_false] at h
      by_cases h2 : op == "!="
      · simp only [h2, if_true] at h
        split at h
        · cases h; rfl
        · exact type_mismatch_or_unknown_return_free op _ _ o h
      · simp only [h2, Bool.false_eq_true, if_false] at h
        exact type_mismatch_or_unknown_return_free op _ _ o h

end Monkey

namespace Monkey

theorem except_bind_ok {α β ε : Type} (a : α) (f : α → Except ε β) :
    (Except.ok a : Except ε α) >>= f = f a := rfl

theorem except_bind_error {α β ε : Type} (e : ε) (f : α → Except ε β) :
    (Except.error e : Except ε α) >>= f = Except.error e := rfl

theorem evaluation_preserves_return_free (fuel : Nat) :
    (∀ env obj stmts o env2, return_free_env env = true → return_free obj = true →
       evaluate_statement_list fuel env obj stmts = .ok (o, env2) →
       return_free o = true ∧ return_free_env env2 = true) ∧
    (∀ env s o env2, return_free_env env = true →
       evaluate_statement fuel env s = .ok (o, env2) →
       return_free_ret o = true ∧ return_free_env env2 = true) ∧
    (∀ env ident expr o env2, return_free_env env = true →
       evaluate_let_statement fuel env ident expr = .ok (o, env2) →
       return_free o = true ∧ return_free_env env2 = true) ∧
    (∀ env expr o env2, return_free_env env = true →
       evaluate_return_statement fuel env expr = .ok (o, env2) →
       return_free_ret o = true ∧ return_free_env env2 = true) ∧
    (∀ env e o env2, return_free_env env = true →
       evaluate_expression fuel env e = .ok (o, env2) →
       return_free o = true ∧ return_free_env env2 = true) ∧
    (∀ env es os env2, return_free_env env = true →
       evaluate_expressions fuel env es = .ok (os, env2) →
       (∀ o ∈ os, return_free o = true) ∧ return_free_env env2 = true) ∧
    (∀ func args o, return_free func = true → (∀ a ∈ args, return_free a = true) →
       apply_function fuel func args = .ok o → return_free o = true) ∧
    (∀ env c cons alt o env2, return_free_env env = true →
       evaluate_if_expression fuel env c cons alt = .ok (o, env2) →
       return_free o = true ∧ return_free_env env2 = true) ∧
    (∀ env b o env2, return_free_env env = true →
       evaluate_block_statement fuel env b = .ok (o, env2) →
       return_free o = true ∧ return_free_env env2 = true) := by
  induction fuel with
  | zero =>
    refine ⟨?_, ?_, ?_, ?_, ?_, ?_, ?_, ?_, ?_⟩ <;> intros <;>
      simp_all only [evaluate_statement_list, evaluate_statement,
        evaluate_let_statement, evaluate_return_statement,
        evaluate_expression, evaluate_expressions, apply_function,
        evaluate_if_expression, evaluate_block_statement, reduceCtorEq]
  | succ n ih =>
    obtain ⟨ihList, ihStmt, ihLet, ihRet, ihExpr, ihExprs, ihApply, ihIf, ihBlock⟩ := ih
    refine ⟨?_, ?_, ?_, ?_, ?_, ?_, ?_, ?_, ?_⟩
    · -- statement list
      intro env obj stmts o env2 henv hobj h
      cases stmts with
      | nil =>
        simp only [evaluate_statement_list] at h
        cases h
        exact ⟨hobj, henv⟩
      | cons stmt rest =>
        simp only [evaluate_statement_list] at h
        cases hs : evaluate_statement n env stmt with
        | error e => rw [hs, except_bind_error] at h; exact Except.noConfusion h
        | ok r =>
          obtain ⟨o1, env1⟩ := r
          rw [hs, except_bind_ok] at h
          obtain ⟨ho1, henv1⟩ := ihStmt env stmt o1 env1 henv hs
          cases o1 with
          | Return v =>
            simp only [] at h
            cases h
            exact ⟨ho1, henv1⟩
          | Error m =>
            simp only [] at h
            cases h
            exact ⟨rfl, henv1⟩
          | Int v =>
            exact ihList env1 (.Int v) rest o env2 henv1 ho1 h
          | Boolean b =>
            exact ihList env1 (.Boolean b) rest o env2 henv1 ho1 h
          | Null =>
            exact ihList env1 .Null rest o env2 henv1 ho1 h
          | Function ps body fenv =>
            exact ihList env1 (.Function ps body fenv) rest o env2 henv1 ho1 h
    · -- statement dispatch
      intro env s o env2 henv h
      cases s with
      | Expression e =>
        simp only [evaluate_statement] at h
        obtain ⟨ho, henv2⟩ := ihExpr env e o env2 henv h
        exact ⟨return_free_imp_ret o ho, henv2⟩
      | Let ident value =>
        simp only [evaluate_statement] at h
        obtain ⟨ho, henv2⟩ := ihLet env ident value o env2 henv h
        exact ⟨return_free_imp_ret o ho, henv2⟩
      | Return e =>
        simp only [evaluate_statement] at h
        exact ihRet env e o env2 henv h
    · -- let statement
      intro env ident expr o env2 henv h
      cases ident with
      | Ident name =>
        simp only [evaluate_let_statement] at h
        cases he : evaluate_expression n env expr with
        | error e => rw [he, except_bind_error] at h; exact Except.noConfusion h
        | ok r =>
          obtain ⟨obj, env1⟩ := r
          rw [he, except_bind_ok] at h
          obtain ⟨hobj, henv1⟩ := ihExpr env expr obj env1 henv he
          cases obj with
          | Error m => cases h; exact ⟨rfl, henv1⟩
          | Int v => cases h; exact ⟨hobj, set_return_free _ _ _ henv1 hobj⟩
          | Boolean b => cases h; exact ⟨hobj, set_return_free _ _ _ henv1 hobj⟩
          | Null => cases h; exact ⟨hobj, set_return_free _ _ _ henv1 hobj⟩
          | Return v => simp [return_free] at hobj
          | Function ps body fenv =>
            cases h; exact ⟨hobj, set_return_free _ _ _ henv1 hobj⟩
      | Int v =>
        simp only [evaluate_let_statement] at h
        exact Except.noConfusion h
      | Boolean b =>
        simp only [evaluate_let_statement] at h
        exact Except.noConfusion h
      | PrefixExpr op right =>
        simp only [evaluate_let_statement] at h
        exact Except.noConfusion h
      | InfixExpr left op right =>
        simp only [evaluate_let_statement] at h
        exact Except.noConfusion h
      | If c cs alt =>
        simp only [evaluate_let_statement] at h
        exact Except.noConfusion h
      | Function ps body =>
        simp only [evaluate_let_statement] at h
        exact Except.noConfusion h
      | Call f args =>
        simp only [evaluate_let_statement] at h
        exact Except.noConfusion h
    · -- return statement
      intro env expr o env2 henv h
      simp only [evaluate_return_statement] at h
      cases he : evaluate_expression n env expr with
      | error e => rw [he, except_bind_error] at h; exact Except.noConfusion h
      | ok r =>
        obtain ⟨obj, env1⟩ := r
        rw [he, except_bind_ok] at h
        obtain ⟨hobj, henv1⟩ := ihExpr env expr obj env1 henv he
        cases obj with
        | Error m => cases h; exact ⟨rfl, henv1⟩
        | Int v => cases h; exact ⟨hobj, henv1⟩
        | Boolean b => cases h; exact ⟨hobj, henv1⟩
        | Null => cases h; exact ⟨hobj, henv1⟩
        | Return v => simp [return_free] at hobj
        | Function ps body fenv => cases h; exact ⟨hobj, henv1⟩
    · -- expression
      intro env e o env2 henv h
      cases e with
      | Int v =>
        simp only [evaluate_expression] at h
        cases h; exact ⟨rfl, henv⟩
      | Boolean b =>
        simp only [evaluate_expression] at h
        cases h; exact ⟨rfl, henv⟩
      | Ident name =>
        simp only [evaluate_expression] at h
        cases h
        exact ⟨evaluate_identifier_return_free env name henv, henv⟩
      | PrefixExpr op right =>
        simp only [evaluate_expression] at h
        cases he : evaluate_expression n env right with
        | error e => rw [he, except_bind_error] at h; exact Except.noConfusion h
        | ok r =>
          obtain ⟨robj, env1⟩ := r
          rw [he, except_bind_ok] at h
          obtain ⟨hro, henv1⟩ := ihExpr env right robj env1 henv he
          simp only [] at h
          split at h
          · cases h; exact ⟨rfl, henv1⟩
          · cases hp : evaluate_prefix_expression op robj with
            | error e => rw [hp, except_bind_error] at h; exact Except.noConfusion h
            | ok po =>
              rw [hp, except_bind_ok] at h
              cases h
              exact ⟨prefix_return_free op robj _ hp, henv1⟩
      | InfixExpr left op right =>
        simp only [evaluate_expression] at h
        cases hl : evaluate_expression n env left with
        | error e => rw [hl, except_bind_error] at h; exact Except.noConfusion h
        | ok rl =>
          obtain ⟨lobj, env1⟩ := rl
          rw [hl, except_bind_ok] at h
          obtain ⟨hlo, henv1⟩ := ihExpr env left lobj env1 henv hl
          simp only [] at h
          split at h
          · cases h; exact ⟨rfl, henv1⟩
          · cases hr : evaluate_expression n env1 right with
            | error e => rw [hr, except_bind_error] at h; exact Except.noConfusion h
            | ok rr =>
              obtain ⟨robj, env3⟩ := rr
              rw [hr, except_bind_ok] at h
              obtain ⟨hro, henv3⟩ := ihExpr env1 right robj env3 henv1 hr
              simp only [] at h
              split at h
              · cases h; exact ⟨rfl, henv3⟩
              · cases hi : evaluate_infix_expression op lobj robj with
                | error e => rw [hi, except_bind_error] at h; exact Except.noConfusion h
                | ok io =>
                  rw [hi, except_bind_ok] at h
                  cases h
                  exact ⟨infix_return_free op lobj robj _ hi, henv3⟩
      | If c cons alt =>
        simp only [evaluate_expression] at h
        exact ihIf env c cons alt o env2 henv h
      | Function ps body =>
        simp only [evaluate_expression] at h
        cases h
        refine ⟨?_, henv⟩
        simp only [return_free]
        exact henv
      | Call fn args =>
        simp only [evaluate_expression] at h
        cases hf : evaluate_expression n env fn with
        | error e => rw [hf, except_bind_error] at h; exact Except.noConfusion h
        | ok rf =>
          obtain ⟨fobj, env1⟩ := rf
          rw [hf, except_bind_ok] at h
          obtain ⟨hfo, henv1⟩ := ihExpr env fn fobj env1 henv hf
          simp only [] at h
          split at h
          · cases h; exact ⟨rfl, henv1⟩
          · cases ha : evaluate_expressions n env1 args with
            | error e => rw [ha, except_bind_error] at h; exact Except.noConfusion h
            | ok ra =>
              obtain ⟨argvs, env3⟩ := ra
              rw [ha, except_bind_ok] at h
              obtain ⟨hargs, henv3⟩ := ihExprs env1 args argvs env3 henv1 ha
              simp only [] at h
              cases hap : apply_function n fobj argvs with
              | error e => rw [hap, except_bind_error] at h; exact Except.noConfusion h
              | ok ao =>
                rw [hap, except_bind_ok] at h
                cases h
                exact ⟨ihApply fobj argvs _ hfo hargs hap, henv3⟩
    · -- expressions (call arguments)
      intro env es os env2 henv h
      cases es with
      | nil =>
        simp only [evaluate_expressions] at h
        cases h
        refine ⟨?_, henv⟩
        intro o ho
        cases ho
      | cons e rest =>
        simp only [evaluate_expressions] at h
        cases he : evaluate_expression n env e with
        | error err => rw [he, except_bind_error] at h; exact Except.noConfusion h
        | ok r =>
          obtain ⟨obj, env1⟩ := r
          rw [he, except_bind_ok] at h
          obtain ⟨hobj, henv1⟩ := ihExpr env e obj env1 henv he
          simp only [] at h
          split at h
          · cases h
            refine ⟨?_, henv1⟩
            intro o ho
            simp only [List.mem_singleton] at ho
            subst ho
            rfl
          · cases hr : evaluate_expressions n env1 rest with
            | error err => rw [hr, except_bind_error] at h; exact Except.noConfusion h
            | ok rr =>
              obtain ⟨objs, env3⟩ := rr
              rw [hr, except_bind_ok] at h
              obtain ⟨hobjs, henv3⟩ := ihExprs env1 rest objs env3 henv1 hr
              simp only [] at h
              cases h
              refine ⟨?_, henv3⟩
              intro o2 ho2
              cases ho2 with
              | head => exact hobj
              | tail _ hmem => exact hobjs o2 hmem
    · -- apply_function
      intro func args o hfunc hargs h
      cases func with
      | Int v =>
        simp only [apply_function, Object.type_info] at h
        cases h; rfl
      | Boolean b =>
        simp only [apply_function, Object.type_info] at h
        cases h; rfl
      | Null =>
        simp only [apply_function, Object.type_info] at h
        exact Except.noConfusion h
      | Return v => simp [return_free] at hfunc
      | Error m =>
        simp only [apply_function, Object.type_info] at h
        cases h; rfl
      | Function ps body fenv =>
        simp only [apply_function] at h
        simp only [return_free] at hfunc
        cases hb : bind_parameters ps 0 args (Environment.new_enclosed fenv) with
        | error e => rw [hb, except_bind_error] at h; exact Except.noConfusion h
        | ok envc =>
          rw [hb, except_bind_ok] at h
          have henvc : return_free_env envc = true :=
            bind_parameters_return_free ps 0 args _ envc hargs
              (new_enclosed_return_free fenv hfunc) hb
          cases hblock : evaluate_block_statement n envc body with
          | error e => rw [hblock, except_bind_error] at h; exact Except.noConfusion h
          | ok rb =>
            obtain ⟨obj, envb⟩ := rb
            rw [hblock, except_bind_ok] at h
            obtain ⟨hobj, _⟩ := ihBlock envc body obj envb henvc hblock
            simp only [] at h
            cases obj with
            | Return v => simp [return_free] at hobj
            | Int v => cases h; exact hobj
            | Boolean b => cases h; exact hobj
            | Null => cases h; exact hobj
            | Function ps2 b2 e2 => cases h; exact hobj
            | Error m => cases h; exact hobj
    · -- if expression
      intro env c cons alt o env2 henv h
      simp only [evaluate_if_expression] at h
      cases hc : evaluate_expression n env c with
      | error e => rw [hc, except_bind_error] at h; exact Except.noConfusion h
      | ok r =>
        obtain ⟨cobj, env1⟩ := r
        rw [hc, except_bind_ok] at h
        obtain ⟨hco, henv1⟩ := ihExpr env c cobj env1 henv hc
        simp only [] at h
        split at h
        · cases h; exact ⟨rfl, henv1⟩
        · by_cases ht : is_truthy cobj
          · rw [if_pos ht] at h
            exact ihBlock env1 cons o env2 henv1 h
          · rw [if_neg ht] at h
            cases alt with
            | some a => exact ihBlock env1 a o env2 henv1 h
            | none => cases h; exact ⟨rfl, henv1⟩
    · -- block statement
      intro env b o env2 henv h
      simp only [evaluate_block_statement] at h
      exact ihList env .Null b.statements o env2 henv rfl h

theorem falls_through_append {fuel : Nat} {env : Environment} {obj : Object}
    {l1 : List Statement} {fuel2 : Nat} {env2 : Environment} {obj2 : Object}
    (hft : falls_through fuel env obj l1 fuel2 env2 obj2) (l2 : List Statement) :
    evaluate_statement_list fuel env obj (l1 ++ l2) =
      evaluate_statement_list fuel2 env2 obj2 l2 := by
  induction hft with
  | nil f e ob => rfl
  | cons f e ob stmt rest o env1 f2 e2 o2 heval hnr hne htail ih =>
    show evaluate_statement_list (f+1) e ob (stmt :: (rest ++ l2)) = _
    simp only [evaluate_statement_list, heval, except_bind_ok]
    cases o with
    | Return v => exact absurd rfl (hnr v)
    | Error m => exact absurd rfl (hne m)
    | Int v => exact ih
    | Boolean b => exact ih
    | Null => exact ih
    | Function ps body fenv => exact ih

theorem falls_through_return_free {fuel : Nat} {env : Environment} {obj : Object}
    {l : List Statement} {fuel2 : Nat} {env2 : Environment} {obj2 : Object}
    (hft : falls_through fuel env obj l fuel2 env2 obj2) :
    return_free_env env = true → return_free_env env2 = true := by
  induction hft with
  | nil _ _ _ => exact fun h => h
  | cons f e ob stmt rest o env1 f2 e2 o2 heval hnr hne htail ih =>
    intro henv
    exact ih ((evaluation_preserves_return_free f).2.1 e stmt o env1 henv heval).2

set_option maxRecDepth 10000

/-- C1 counterexample: evaluating the program
if (10 > 1) \x7b if (10 > 1) \x7b return 10; \x7d \x7d 999; in a fresh
environment yields Int 999, not the Int 10 the claim states. -/
theorem claim_C1_counterexample :
    run_program 100 "if (10 > 1) \x7b if (10 > 1) \x7b return 10; \x7d \x7d 999;" =
      .result (.Int 999) ∧
    RunOutcome.result (Object.Int 999) ≠ RunOutcome.result (Object.Int 10) := by
  refine ⟨rfl, ?_⟩
  intro h
  injection h with h
  injection h with h
  exact absurd h (by decide)

/-- C1 amended: the Return wrapper produced by the nested return statement
is unwrapped by the innermost enclosing block statement and does not
unwind past the outer block, so the trailing statement 999 determines
the result (Int 999); without the trailing statement the program yields
Int 10. -/
theorem claim_C1_return_unwrap :
    run_program 100 "if (10 > 1) \x7b if (10 > 1) \x7b return 10; \x7d \x7d 999;" =
      .result (.Int 999) ∧
    run_program 100 "if (10 > 1) \x7b if (10 > 1) \x7b return 10; \x7d \x7d" =
      .result (.Int 10) := ⟨rfl, rfl⟩

/-- C2: in Token.get_precedence the Lparen token falls into the catch-all
and gets Lowest, the minimum precedence, so the expression loop never
enters its call branch.  Parsing a + add(b * c) + d therefore yields TWO
statements, the first printing as (a + add), not the single statement
((a + add((b * c))) + d) the claim (and the repository's own
test_operator_precedence_parsing) expects. -/
theorem claim_C2_call_precedence :
    Token.get_precedence { kind := .Lparen, literal := "(" } = Precedence.Lowest ∧
    parse_program_str 100 "a + add(b * c) + d" =
      .ok { statements := [
        Statement.Expression (.InfixExpr (.Ident "a") "+" (.Ident "add")),
        Statement.Expression (.InfixExpr
          (.InfixExpr (.Ident "b") "*" (.Ident "c")) "+" (.Ident "d"))] } ∧
    Statement.to_string
        (Statement.Expression (.InfixExpr (.Ident "a") "+" (.Ident "add"))) =
      "(a + add)" ∧
    "(a + add)" ≠ "((a + add((b * c))) + d)" := by
  refine ⟨rfl, rfl, rfl, ?_⟩
  decide

/-- C3: apply_function does not check the error sentinel produced by
evaluate_expressions.  With a two-parameter function and an erroring
first argument the call panics indexing args[1] out of bounds, and with
a one-parameter function the body is entered with the parameter bound to
the error value, yielding Int 5 instead of the argument's error. -/
theorem claim_C3_argument_error_ignored :
    evaluate_value 100 Environment.new call_error_arg_prog = .error .panicked ∧
    evaluate_value 100 Environment.new call_error_arg_one_param_prog = .ok (.Int 5) ∧
    (Except.ok (Object.Int 5) : Except EvalFailure Object) ≠
      .ok (.Error "unknown operator: BOOLEAN + BOOLEAN") := by
  refine ⟨rfl, rfl, ?_⟩
  intro h
  injection h with h
  exact Object.noConfusion h

/-- C4: the parseable program 1 + if (false) \x7b 1 \x7d does not evaluate
to an Object.Error; evaluation reaches the unreachable branch of
Object.type_info on the Null right operand and panics. -/
theorem claim_C4_panic_on_null_operand :
    parse_program_str 100 "1 + if (false) \x7b 1 \x7d" =
      .ok { statements := [Statement.Expression (.InfixExpr (.Int 1) "+"
        (.If (.Boolean false) (.mk [Statement.Expression (.Int 1)]) none))] } ∧
    run_program 100 "1 + if (false) \x7b 1 \x7d" = .evalFailed .panicked := ⟨rfl, rfl⟩

/-- C5 counterexample: in let f = fn() \x7b g \x7d; let g = 1; f(); the
call f() yields Error identifier not found: g, not Int 1, so a binding
added to the defining environment after the function literal was
evaluated is NOT seen by a later call. -/
theorem claim_C5_counterexample :
    evaluate_value 100 Environment.new late_binding_prog =
      .ok (.Error "identifier not found: g") ∧
    (Except.ok (Object.Error "identifier not found: g") : Except EvalFailure Object) ≠
      .ok (.Int 1) := by
  refine ⟨rfl, ?_⟩
  intro h
  injection h with h
  exact Object.noConfusion h

/-- C5 amended: evaluating a function literal captures a deep-copied
snapshot of the defining environment (the clone taken at literal
evaluation time); bindings added to the defining environment afterwards
are not seen by later calls, so the example program yields
Error identifier not found: g. -/
theorem claim_C5_snapshot_capture :
    (∀ (fuel : Nat) (env : Environment) (ps : List String) (body : BlockStatement),
      evaluate_expression (fuel+1) env (.Function ps body) =
        .ok (.Function ps body env, env)) ∧
    evaluate_value 100 Environment.new late_binding_prog =
      .ok (.Error "identifier not found: g") := by
  refine ⟨?_, rfl⟩
  intro fuel env ps body
  rfl

/-- C6: through the real pipeline the newAdder program evaluates to
Int 3, not Int 5: because Lparen gets precedence Lowest, newAdder(2)
parses as the two statements newAdder and (2), so no call is ever
applied.  The closure semantics themselves are correct: on a directly
constructed syntax tree with Call nodes the same program evaluates to
Int 5. -/
theorem claim_C6_closure :
    run_program 100 "let newAdder = fn(x) \x7b fn(y) \x7b x + y \x7d; \x7d; let addTwo = newAdder(2); addTwo(3);" =
      .result (.Int 3) ∧
    evaluate_value 100 Environment.new new_adder_prog = .ok (.Int 5) := ⟨rfl, rfl⟩

/-- C7: exactly Boolean false and Null are falsy (so Int 0 is truthy);
an if expression first evaluates its condition, then evaluates the
consequence when the condition value is truthy, the alternative when
falsy and an alternative is present, and yields Null otherwise; the two
example programs behave as the claim states. -/
theorem claim_C7_truthiness :
    (∀ o : Object, is_truthy o = false ↔ (o = .Boolean false ∨ o = .Null)) ∧
    is_truthy (.Int 0) = true ∧
    (∀ (fuel : Nat) (env : Environment) (c : Expression) (cons : BlockStatement)
        (alt : Option BlockStatement) (v : Object) (env1 : Environment),
      evaluate_expression fuel env c = .ok (v, env1) →
      (∀ m, v ≠ Object.Error m) →
      evaluate_if_expression (fuel+1) env c cons alt =
        (if is_truthy v then evaluate_block_statement fuel env1 cons
         else
           match alt with
           | some a => evaluate_block_statement fuel env1 a
           | none => .ok (.Null, env1))) ∧
    run_program 100 "if (false) \x7b 10 \x7d" = .result .Null ∧
    run_program 100 "if (1 < 2) \x7b 10 \x7d else \x7b 20 \x7d" = .result (.Int 10) := by
  refine ⟨?_, rfl, ?_, rfl, rfl⟩
  · intro o
    cases o with
    | Boolean b => cases b <;> simp [is_truthy]
    | Null => simp [is_truthy]
    | Int v => simp [is_truthy]
    | Return v => simp [is_truthy]
    | Function ps body env => simp [is_truthy]
    | Error m => simp [is_truthy]
  · intro fuel env c cons alt v env1 hev hv
    simp only [evaluate_if_expression, hev, except_bind_ok]

/-- C7 witness: the general if-decomposition applied at a concrete
truthy condition. -/
theorem claim_C7_witness :
    evaluate_if_expression 6 Environment.new (.Boolean true)
        (BlockStatement.mk [Statement.Expression (.Int 10)]) none =
      evaluate_block_statement 5 Environment.new
        (BlockStatement.mk [Statement.Expression (.Int 10)]) := by
  have h := claim_C7_truthiness.2.2.1 5 Environment.new (.Boolean true)
    (BlockStatement.mk [Statement.Expression (.Int 10)]) none (.Boolean true)
    Environment.new rfl (fun _ hm => Object.noConfusion hm)
  simpa using h

/-- C8 counterexample: with a caller-supplied starting environment
binding x to Return (Return (Int 1)), the program x; makes top-level
evaluation yield the Return wrapper Return (Int 1), so over ALL starting
environments the claim fails. -/
theorem claim_C8_counterexample :
    evaluate 10 nested_return_env ident_x_prog =
      .ok (.Return (.Int 1), nested_return_env) := rfl

/-- C8 amended: for every program and every starting environment that
contains no Return wrapper anywhere (in particular every fresh
environment and every environment the evaluator itself builds), the
top-level result of evaluate is never an Object.Return wrapper. -/
theorem claim_C8_no_return_escape :
    ∀ (fuel : Nat) (env : Environment) (program : Program) (o : Object)
      (env2 : Environment),
      return_free_env env = true →
      evaluate fuel env program = .ok (o, env2) →
      ∀ v, o ≠ Object.Return v := by
  intro fuel env program o env2 henv hev v heq
  cases fuel with
  | zero => exact Except.noConfusion hev
  | succ n =>
    simp only [evaluate] at hev
    have hrf := ((evaluation_preserves_return_free n).1 env .Null
      program.statements o env2 henv rfl hev).1
    subst heq
    simp [return_free] at hrf

/-- C8 witness: the amended theorem applied to a concrete program in
the fresh environment. -/
theorem claim_C8_witness :
    Object.Int 1 ≠ Object.Return (Object.Int 5) :=
  claim_C8_no_return_escape 20 Environment.new
    { statements := [Statement.Expression (.Int 1)] }
    (.Int 1) Environment.new rfl rfl (.Int 5)

/-- C9: block parsing consumes statements until the current token is
Rbrace or Eof, and reaching Eof without a closing brace is not an
error: parsing if (true) \x7b 1 returns Ok with the statements parsed
so far. -/
theorem claim_C9_block_eof :
    (∀ (fuel : Nat) (p : Parser) (acc : List Statement),
      p.cur_token.kind = TokenKind.Rbrace ∨ p.cur_token.kind = TokenKind.Eof →
      parse_block_loop (fuel+1) p acc = .ok (BlockStatement.mk acc, p)) ∧
    parse_program_str 100 "if (true) \x7b 1" =
      .ok { statements := [Statement.Expression
        (.If (.Boolean true) (.mk [Statement.Expression (.Int 1)]) none)] } := by
  refine ⟨?_, rfl⟩
  intro fuel p acc h
  rcases h with h | h <;>
    simp [parse_block_loop, Parser.cur_token_is, h] <;>
    (intro h1 h2
     first
       | exact absurd h1 (by decide)
       | exact absurd h2 (by decide))

/-- C9 witness: the block loop at a parser state whose current token is
Eof returns the accumulated statements. -/
theorem claim_C9_witness :
    parse_block_loop 6 (Parser.new (Lexer.new "".data)) [] =
      .ok (BlockStatement.mk [], Parser.new (Lexer.new "".data)) :=
  claim_C9_block_eof.1 5 (Parser.new (Lexer.new "".data)) [] (Or.inr rfl)

/-- C10: a let statement evaluates to the value it binds, not Null:
evaluate_let_statement returns the bound value itself, and for a program
whose final statement is let x = e; reached normally (the prefix falls
through) in a return-free starting environment, top-level evaluation
returns the non-error value of e. -/
theorem claim_C10_let_value :
    (∀ (fuel : Nat) (env : Environment) (x : String) (e : Expression) (v : Object)
        (env2 : Environment),
      evaluate_expression fuel env e = .ok (v, env2) →
      (∀ m, v ≠ Object.Error m) →
      evaluate_let_statement (fuel+1) env (.Ident x) e = .ok (v, env2.set x v)) ∧
    (∀ (fuel g : Nat) (env env1 : Environment) (obj1 : Object)
        (stmts : List Statement) (x : String) (e : Expression) (v : Object)
        (env2 : Environment),
      return_free_env env = true →
      falls_through fuel env .Null stmts (g+3) env1 obj1 →
      evaluate_expression g env1 e = .ok (v, env2) →
      (∀ m, v ≠ Object.Error m) →
      evaluate (fuel+1) env { statements := stmts ++ [Statement.Let (.Ident x) e] } =
        .ok (v, env2.set x v)) := by
  have part1 : ∀ (fuel : Nat) (env : Environment) (x : String) (e : Expression)
      (v : Object) (env2 : Environment),
      evaluate_expression fuel env e = .ok (v, env2) →
      (∀ m, v ≠ Object.Error m) →
      evaluate_let_statement (fuel+1) env (.Ident x) e = .ok (v, env2.set x v) := by
    intro fuel env x e v env2 hev hv
    simp only [evaluate_let_statement, hev, except_bind_ok]
  refine ⟨part1, ?_⟩
  intro fuel g env env1 obj1 stmts x e v env2 henv hft hev hv
  have henv1 : return_free_env env1 = true := falls_through_return_free hft henv
  have hvrf : return_free v = true :=
    ((evaluation_preserves_return_free g).2.2.2.2.1 env1 e v env2 henv1 hev).1
  have hlet := part1 g env1 x e v env2 hev hv
  show evaluate (fuel+1) env _ = _
  simp only [evaluate]
  rw [falls_through_append hft [Statement.Let (.Ident x) e]]
  show evaluate_statement_list ((g+2)+1) env1 obj1 [Statement.Let (.Ident x) e] =
    .ok (v, env2.set x v)
  have hstmt : evaluate_statement (g+2) env1 (Statement.Let (.Ident x) e) =
      .ok (v, env2.set x v) := by
    show evaluate_statement ((g+1)+1) env1 (Statement.Let (.Ident x) e) = _
    simp only [evaluate_statement]
    exact hlet
  simp only [evaluate_statement_list, hstmt, except_bind_ok]
  cases v with
  | Error m => exact absurd rfl (hv m)
  | Return w => simp [return_free] at hvrf
  | Int n => rfl
  | Boolean b => rfl
  | Null => rfl
  | Function ps body fenv => rfl

/-- C10 witness: the top-level part applied to the one-statement
program let a = 7;. -/
theorem claim_C10_witness :
    evaluate 9 Environment.new
        { statements := [Statement.Let (.Ident "a") (.Int 7)] } =
      .ok (.Int 7, Environment.new.set "a" (.Int 7)) :=
  claim_C10_let_value.2 8 5 Environment.new Environment.new .Null [] "a" (.Int 7)
    (.Int 7) Environment.new rfl (falls_through.nil 8 Environment.new .Null) rfl
    (fun _ hm => Object.noConfusion hm)

end Monkey
